import Mathlib

/-!
Verification of the dependency-listing tool (src/dependencies.py, src/list.py).

A shallow embedding: SQLite rows become a list of string triples
(servicename, dependency, version) in insertion order; Python dicts become
association lists (key membership and lookup are all the code observes);
Python sets become duplicate-free lists (only membership and non-empty
intersection are observed).  Fallible store access is embedded with Except.
-/

set_option autoImplicit false

namespace DepList

/-- A row of the service_dependencies table: (servicename, dependency, version). -/
abbrev Fact := String × String × String

/-- Lookup in a Python dict modelled as an association list: dict.get(k). -/
def dictGet {α : Type} : List (String × α) → String → Option α
  | [], _ => none
  | (k', v) :: rest, k => if k' = k then some v else dictGet rest k

/-- dict.get(k, d): lookup with a default. -/
def dictGetD {α : Type} (m : List (String × α)) (k : String) (d : α) : α :=
  (dictGet m k).getD d

/-- Python set.add on a set modelled as a duplicate-free list. -/
def setAdd (s : List String) (x : String) : List String :=
  if x ∈ s then s else s ++ [x]

/-- rev_graph.setdefault(dep, []).append(v): append v to the list stored at
key k, inserting the key with [v] if absent (src/list.py line 20). -/
def appendAt {α : Type} : List (String × List α) → String → α → List (String × List α)
  | [], k, v => [(k, [v])]
  | (k', vs) :: rest, k, v =>
      if k' = k then (k', vs ++ [v]) :: rest
      else (k', vs) :: appendAt rest k v

/-- direct.setdefault(svc, set()).add(dep): add v to the set stored at key k,
inserting the key with a fresh singleton set if absent (src/list.py line 29). -/
def addToSetAt : List (String × List String) → String → String → List (String × List String)
  | [], k, v => [(k, setAdd [] v)]
  | (k', s) :: rest, k, v =>
      if k' = k then (k', setAdd s v) :: rest
      else (k', s) :: addToSetAt rest k v

/-- build_reverse_graph (src/list.py lines 13-21): dependency -> list of
(dependent, version), appending rows in input order. -/
def build_reverse_graph (rows : List Fact) : List (String × List (String × String)) :=
  rows.foldl (fun m r => appendAt m r.2.1 (r.1, r.2.2)) []

/-- build_direct_map (src/list.py lines 23-30): service -> set of the
dependencies it directly depends on (versions discarded). -/
def build_direct_map (rows : List Fact) : List (String × List String) :=
  rows.foldl (fun m r => addToSetAt m r.1 r.2.1) []

/-- compute_immediate_upstream (src/list.py lines 32-45): keep a candidate
(dep, ver) unless its direct-dependency set intersects the candidate names. -/
def compute_immediate_upstream (service : String)
    (rev_graph : List (String × List (String × String)))
    (direct_map : List (String × List String)) : List (String × String) :=
  let candidates := dictGetD rev_graph service []
  let candidate_names := candidates.foldl (fun s p => setAdd s p.1) []
  candidates.foldl
    (fun (immediate : List (String × String)) (p : String × String) =>
      if ∃ x ∈ dictGetD direct_map p.1 [], x ∈ candidate_names then immediate
      else immediate ++ [p])
    []

/-- The `results` value computed in main (src/list.py lines 64-73): the raw
reverse-map entry when --reduce is absent, the immediate reduction otherwise. -/
def main_results (rows : List Fact) (service : String) (reduceFlag : Bool) :
    List (String × String) :=
  let rev_graph := build_reverse_graph rows
  let direct_map := build_direct_map rows
  let upstream := dictGetD rev_graph service []
  if reduceFlag then compute_immediate_upstream service rev_graph direct_map
  else upstream

/-- Raw reverse lookup: rev_graph.get(service, []) (src/list.py line 69). -/
def rawUpstream (rows : List Fact) (service : String) : List (String × String) :=
  dictGetD (build_reverse_graph rows) service []

/-- Outcome of the SQLite calls that back load_db: connect, then
execute+fetchall.  Each either succeeds or raises (modelled as Except). -/
structure StorageOutcome where
  connectResult : Except String Unit
  scanResult : Except String (List Fact)

/-- load_db (src/list.py lines 4-11): connect, scan, return the rows.
The function body contains no exception handler, so a failure of either
underlying call propagates to the caller unchanged. -/
def load_db (st : StorageOutcome) : Except String (List Fact) := do
  let _ ← st.connectResult
  st.scanResult

/-- The part of main (src/list.py lines 47-92) on the --service path, up to
the computation of `results`.  main wraps load_db in no try/except either, so
a storage exception escapes the whole invocation as-is; on success the
empty-store guard (lines 60-62) yields no results. -/
def main_run (st : StorageOutcome) (service : String) (reduceFlag : Bool) :
    Except String (List (String × String)) :=
  match load_db st with
  | Except.error e => Except.error e
  | Except.ok rows =>
      if rows = [] then Except.ok []
      else Except.ok (main_results rows service reduceFlag)

/-- INSERT OR IGNORE into a table with UNIQUE(servicename, dependency, version)
(src/dependencies.py lines 51-66): append the row unless an equal row exists. -/
def insertOrIgnore (store : List Fact) (f : Fact) : List Fact :=
  if f ∈ store then store else store ++ [f]

/-- save_dependencies_to_db (src/dependencies.py lines 41-72): insert each
(dependency, version) pair for the given service with INSERT OR IGNORE. -/
def save_dependencies_to_db (service_name : String)
    (dependencies : List (String × String)) (store : List Fact) : List Fact :=
  dependencies.foldl (fun st p => insertOrIgnore st (service_name, p.1, p.2)) store

/-- Number of rows of the store equal to a given triple. -/
def countRow (store : List Fact) (f : Fact) : Nat :=
  store.countP (fun r => decide (r = f))

/-- The immediate-upstream reduction as §4.2 of the spec words it: keep a
candidate iff its forward dependency set does not intersect the set of
distinct candidate service names, in original candidate order. -/
def immediate_spec (service : String)
    (rev_graph : List (String × List (String × String)))
    (direct_map : List (String × List String)) : List (String × String) :=
  let candidates := dictGetD rev_graph service []
  candidates.filter
    (fun (p : String × String) => !decide (∃ x ∈ dictGetD direct_map p.1 [], x ∈ candidates.map Prod.fst))

/-! ### Basic lemmas about the dict / set embedding -/

theorem mem_setAdd (s : List String) (x y : String) : y ∈ setAdd s x ↔ y ∈ s ∨ y = x := by
  unfold setAdd
  by_cases h : x ∈ s
  · rw [if_pos h]
    constructor
    · exact Or.inl
    · rintro (hy | rfl)
      · exact hy
      · exact h
  · rw [if_neg h]
    simp

theorem mem_names_foldl (l : List (String × String)) (s : List String) (x : String) :
    x ∈ l.foldl (fun s p => setAdd s p.1) s ↔ x ∈ s ∨ x ∈ l.map Prod.fst := by
  induction l generalizing s with
  | nil => simp
  | cons a l ih => simp [List.foldl_cons, ih, mem_setAdd, or_assoc]

theorem dictGetD_appendAt {α : Type} (m : List (String × List α)) (k k' : String) (v : α) :
    dictGetD (appendAt m k v) k' []
      = dictGetD m k' [] ++ (if k = k' then [v] else []) := by
  induction m with
  | nil => by_cases h : k = k' <;> simp [appendAt, dictGetD, dictGet, h]
  | cons a m ih =>
      obtain ⟨k₀, vs⟩ := a
      by_cases h₀ : k₀ = k
      · subst h₀
        by_cases h' : k₀ = k' <;> simp [appendAt, dictGetD, dictGet, h']
      · by_cases h' : k₀ = k'
        · subst h'
          have hk : ¬ k = k₀ := fun h => h₀ h.symm
          simp [appendAt, dictGetD, dictGet, h₀, hk]
        · simpa [appendAt, dictGetD, dictGet, h₀, h'] using ih

theorem dictGetD_foldl_reverse (rows : List Fact)
    (m : List (String × List (String × String))) (k : String) :
    dictGetD (rows.foldl (fun m r => appendAt m r.2.1 (r.1, r.2.2)) m) k []
      = dictGetD m k []
        ++ (rows.filter (fun r => decide (r.2.1 = k))).map (fun r => (r.1, r.2.2)) := by
  induction rows generalizing m with
  | nil => simp
  | cons r rows ih =>
      rw [List.foldl_cons, ih, dictGetD_appendAt]
      by_cases h : r.2.1 = k <;> simp [h, List.filter_cons]

theorem dictGetD_build_reverse (rows : List Fact) (k : String) :
    dictGetD (build_reverse_graph rows) k []
      = (rows.filter (fun r => decide (r.2.1 = k))).map (fun r => (r.1, r.2.2)) := by
  have h := dictGetD_foldl_reverse rows [] k
  simpa [build_reverse_graph, dictGetD, dictGet] using h

theorem mem_dictGetD_addToSetAt (m : List (String × List String)) (k v k' y : String) :
    y ∈ dictGetD (addToSetAt m k v) k' []
      ↔ y ∈ dictGetD m k' [] ∨ (k = k' ∧ y = v) := by
  induction m with
  | nil => by_cases h : k = k' <;> simp [addToSetAt, setAdd, dictGetD, dictGet, h]
  | cons a m ih =>
      obtain ⟨k₀, s⟩ := a
      by_cases h₀ : k₀ = k
      · subst h₀
        by_cases h' : k₀ = k' <;> simp [addToSetAt, dictGetD, dictGet, h', mem_setAdd]
      · by_cases h' : k₀ = k'
        · subst h'
          have hk : ¬ k = k₀ := fun h => h₀ h.symm
          simp [addToSetAt, dictGetD, dictGet, h₀, hk]
        · simpa [addToSetAt, dictGetD, dictGet, h₀, h'] using ih

theorem mem_dictGetD_foldl_direct (rows : List Fact)
    (m : List (String × List String)) (d x : String) :
    x ∈ dictGetD (rows.foldl (fun m r => addToSetAt m r.1 r.2.1) m) d []
      ↔ x ∈ dictGetD m d [] ∨ ∃ w, (d, x, w) ∈ rows := by
  induction rows generalizing m with
  | nil => simp
  | cons r rows ih =>
      obtain ⟨a, b, c⟩ := r
      rw [List.foldl_cons, ih, mem_dictGetD_addToSetAt]
      constructor
      · rintro ((h | ⟨rfl, rfl⟩) | ⟨w, hw⟩)
        · exact Or.inl h
        · exact Or.inr ⟨c, List.mem_cons_self _ _⟩
        · exact Or.inr ⟨w, List.mem_cons_of_mem _ hw⟩
      · rintro (h | ⟨w, hw⟩)
        · exact Or.inl (Or.inl h)
        · rcases List.mem_cons.mp hw with he | hm
          · obtain ⟨rfl, rfl, rfl⟩ : a = d ∧ b = x ∧ c = w := by
              have := he.symm
              simpa [Prod.ext_iff] using this
            exact Or.inl (Or.inr ⟨rfl, rfl⟩)
          · exact Or.inr ⟨w, hm⟩

theorem mem_dictGetD_build_direct (rows : List Fact) (d x : String) :
    x ∈ dictGetD (build_direct_map rows) d [] ↔ ∃ w, (d, x, w) ∈ rows := by
  have h := mem_dictGetD_foldl_direct rows [] d x
  simpa [build_direct_map, dictGetD, dictGet] using h

/-! ### The reduction loop as a filter -/

theorem immediate_foldl_eq_filter (direct_map : List (String × List String))
    (names : List String) (l acc : List (String × String)) :
    l.foldl (fun (immediate : List (String × String)) (p : String × String) =>
        if ∃ x ∈ dictGetD direct_map p.1 [], x ∈ names then immediate
        else immediate ++ [p]) acc
      = acc ++ l.filter
          (fun (p : String × String) => !decide (∃ x ∈ dictGetD direct_map p.1 [], x ∈ names)) := by
  induction l generalizing acc with
  | nil => simp
  | cons a l ih =>
      by_cases h : ∃ x ∈ dictGetD direct_map a.1 [], x ∈ names
      · simp [List.foldl_cons, if_pos h, List.filter_cons, h, ih]
      · simp [List.foldl_cons, if_neg h, List.filter_cons, h, ih]

theorem compute_immediate_eq_filter (service : String)
    (rg : List (String × List (String × String)))
    (dm : List (String × List String)) :
    compute_immediate_upstream service rg dm
      = (dictGetD rg service []).filter
          (fun (p : String × String) => !decide (∃ x ∈ dictGetD dm p.1 [],
              x ∈ (dictGetD rg service []).map Prod.fst)) := by
  unfold compute_immediate_upstream
  rw [immediate_foldl_eq_filter, List.nil_append]
  apply List.filter_congr
  intro p _
  congr 1
  rw [decide_eq_decide]
  apply exists_congr
  intro x
  apply and_congr_right
  intro _
  rw [mem_names_foldl]
  simp

theorem mem_compute_immediate (service : String)
    (rg : List (String × List (String × String)))
    (dm : List (String × List String)) (p : String × String) :
    p ∈ compute_immediate_upstream service rg dm
      ↔ p ∈ dictGetD rg service []
        ∧ ¬ ∃ x ∈ dictGetD dm p.1 [], x ∈ (dictGetD rg service []).map Prod.fst := by
  rw [compute_immediate_eq_filter, List.mem_filter]
  simp

theorem mem_rawUpstream (rows : List Fact) (s d v : String) :
    (d, v) ∈ rawUpstream rows s ↔ (d, s, v) ∈ rows := by
  unfold rawUpstream
  rw [dictGetD_build_reverse]
  simp only [List.mem_map, List.mem_filter, decide_eq_true_eq]
  constructor
  · rintro ⟨⟨a, b, c⟩, ⟨hr, hk⟩, he⟩
    obtain ⟨rfl, rfl⟩ : a = d ∧ c = v := by simpa [Prod.ext_iff] using he
    subst hk
    exact hr
  · intro h
    exact ⟨(d, s, v), ⟨h, rfl⟩, rfl⟩

theorem mem_rawNames (rows : List Fact) (s e : String) :
    e ∈ (dictGetD (build_reverse_graph rows) s []).map Prod.fst
      ↔ ∃ w, (e, s, w) ∈ rows := by
  simp only [List.mem_map]
  constructor
  · rintro ⟨⟨a, b⟩, hp, rfl⟩
    exact ⟨b, (mem_rawUpstream rows s a b).mp hp⟩
  · rintro ⟨w, hw⟩
    exact ⟨(e, w), (mem_rawUpstream rows s e w).mpr hw, rfl⟩

/-! ### Lemmas about the fact store (src/dependencies.py) -/

theorem insertOrIgnore_of_mem (store : List Fact) (f : Fact) (h : f ∈ store) :
    insertOrIgnore store f = store := by
  simp [insertOrIgnore, h]

theorem mem_insertOrIgnore (store : List Fact) (f : Fact) : f ∈ insertOrIgnore store f := by
  unfold insertOrIgnore
  by_cases h : f ∈ store
  · simp [h]
  · simp [h]

theorem countRow_insertOrIgnore (store : List Fact) (f : Fact) (h : countRow store f ≤ 1) :
    countRow (insertOrIgnore store f) f = 1 := by
  unfold countRow insertOrIgnore at *
  by_cases hm : f ∈ store
  · rw [if_pos hm]
    have h1 : 0 < store.countP (fun r => decide (r = f)) := by
      rw [List.countP_pos_iff]
      exact ⟨f, hm, by simp⟩
    omega
  · rw [if_neg hm, List.countP_append]
    have h0 : store.countP (fun r => decide (r = f)) = 0 := by
      rw [List.countP_eq_zero]
      intro a ha
      simp only [decide_eq_true_eq]
      rintro rfl
      exact hm ha
    simp [h0, List.countP_cons]

theorem save_replicate_of_mem (svc d v : String) (n : Nat) (store : List Fact)
    (h : (svc, d, v) ∈ store) :
    save_dependencies_to_db svc (List.replicate n (d, v)) store = store := by
  induction n with
  | zero => rfl
  | succ n ih =>
      rw [List.replicate_succ]
      show save_dependencies_to_db svc (List.replicate n (d, v))
          (insertOrIgnore store (svc, d, v)) = store
      rw [insertOrIgnore_of_mem store _ h]
      exact ih

/-! ### Claim theorems -/

/-- Claim C1: in Immediate mode, a candidate from the target's raw
reverse-lookup list is kept if and only if its forward dependency set does not
intersect the set of distinct candidate names, and the kept candidates appear
in the original candidate order with their original versions: the code's
reduction loop equals the specification-side filter. -/
theorem immediate_mode_filter_correct (rows : List Fact) (service : String) :
    main_results rows service true
      = immediate_spec service (build_reverse_graph rows) (build_direct_map rows) := by
  have h : main_results rows service true
      = compute_immediate_upstream service (build_reverse_graph rows)
          (build_direct_map rows) := rfl
  rw [h, compute_immediate_eq_filter]
  rfl

/-- Claim C2 counterexample: with facts [(A,X,1), (A,A,1)], A is the only
dependent of X, yet A is excluded from immediate mode although no candidate E
distinct from A exists — the code also filters on D's own name. -/
theorem self_dep_excluded_without_other_candidate :
    ("A", "1") ∈ rawUpstream [("A", "X", "1"), ("A", "A", "1")] "X"
    ∧ ("A", "1") ∉ main_results [("A", "X", "1"), ("A", "A", "1")] "X" true
    ∧ ¬ ∃ e ∈ (rawUpstream [("A", "X", "1"), ("A", "A", "1")] "X").map Prod.fst,
        e ≠ "A"
        ∧ e ∈ dictGetD (build_direct_map [("A", "X", "1"), ("A", "A", "1")]) "A" [] := by
  decide

/-- Claim C2 (amended): a candidate D from RawUpstream(S) is excluded from
ImmediateUpstream(S) if and only if there exists a candidate E — a dependent
of S, possibly D itself — such that D directly depends on E. -/
theorem excluded_iff_depends_on_candidate (rows : List Fact) (s d v : String)
    (h : (d, v) ∈ rawUpstream rows s) :
    (d, v) ∉ main_results rows s true
      ↔ ∃ e, (∃ w, (e, s, w) ∈ rows) ∧ (∃ w, (d, e, w) ∈ rows) := by
  have hm : main_results rows s true
      = compute_immediate_upstream s (build_reverse_graph rows)
          (build_direct_map rows) := rfl
  have hc : (d, v) ∈ dictGetD (build_reverse_graph rows) s [] := h
  rw [hm, mem_compute_immediate]
  constructor
  · intro hn
    have hP : ∃ x ∈ dictGetD (build_direct_map rows) d [],
        x ∈ (dictGetD (build_reverse_graph rows) s []).map Prod.fst := by
      by_contra hq
      exact hn ⟨hc, hq⟩
    obtain ⟨x, hx, hxn⟩ := hP
    exact ⟨x, (mem_rawNames rows s x).mp hxn, (mem_dictGetD_build_direct rows d x).mp hx⟩
  · rintro ⟨e, he1, he2⟩ hmem
    exact hmem.2 ⟨e, (mem_dictGetD_build_direct rows d e).mpr he2,
      (mem_rawNames rows s e).mpr he1⟩

/-- Claim C2 witness: on the spec's concrete scenario the amended
characterization holds at candidate (A, 1.0) of target X. -/
theorem excluded_iff_depends_on_candidate_witness :
    ("A", "1.0") ∈ rawUpstream
        [("A", "X", "1.0"), ("B", "X", "1.0"), ("A", "B", "2.0")] "X"
    ∧ (("A", "1.0") ∉ main_results
          [("A", "X", "1.0"), ("B", "X", "1.0"), ("A", "B", "2.0")] "X" true
        ↔ ∃ e, (∃ w, (e, "X", w)
              ∈ [("A", "X", "1.0"), ("B", "X", "1.0"), ("A", "B", "2.0")])
            ∧ (∃ w, ("A", e, w)
              ∈ [("A", "X", "1.0"), ("B", "X", "1.0"), ("A", "B", "2.0")])) :=
  ⟨by decide, excluded_iff_depends_on_candidate
      [("A", "X", "1.0"), ("B", "X", "1.0"), ("A", "B", "2.0")] "X" "A" "1.0" (by decide)⟩

/-- Claim C3: the Immediate-mode result is a subsequence of the Raw-mode
result (so in particular a subset). -/
theorem immediate_sublist_raw (rows : List Fact) (s : String) :
    (main_results rows s true).Sublist (main_results rows s false) := by
  have h : main_results rows s true
      = compute_immediate_upstream s (build_reverse_graph rows)
          (build_direct_map rows) := rfl
  have h2 : main_results rows s false = dictGetD (build_reverse_graph rows) s [] := rfl
  rw [h, h2, compute_immediate_eq_filter]
  exact List.filter_sublist _

/-- Claim C4: the Reverse Adjacency Map's per-key list holds exactly the
facts naming that dependency, as (dependent, version) pairs in input order,
and rebuilding from the same input yields the same map. -/
theorem reverse_graph_per_key (rows : List Fact) (k : String) :
    dictGetD (build_reverse_graph rows) k []
      = (rows.filter (fun r => decide (r.2.1 = k))).map (fun r => (r.1, r.2.2))
    ∧ ∀ rows₂, rows₂ = rows → build_reverse_graph rows₂ = build_reverse_graph rows := by
  refine ⟨dictGetD_build_reverse rows k, ?_⟩
  rintro rows₂ rfl
  rfl

/-- Claim C4 witness: the characterization evaluated on a concrete input. -/
theorem reverse_graph_per_key_witness :
    dictGetD (build_reverse_graph [("A", "X", "1"), ("B", "X", "2")]) "X" []
      = ([("A", "X", "1"), ("B", "X", "2")].filter
          (fun (r : Fact) => decide (r.2.1 = "X"))).map (fun r => (r.1, r.2.2))
    ∧ build_reverse_graph [("A", "X", "1"), ("B", "X", "2")]
      = build_reverse_graph [("A", "X", "1"), ("B", "X", "2")] :=
  ⟨(reverse_graph_per_key [("A", "X", "1"), ("B", "X", "2")] "X").1,
   (reverse_graph_per_key [("A", "X", "1"), ("B", "X", "2")] "X").2 _ rfl⟩

/-- Claim C5: Raw mode returns exactly the Reverse Adjacency Map entry for
the target, and the empty sequence when the target has no entry. -/
theorem raw_mode_exact_entry (rows : List Fact) (s : String) :
    (∀ l, dictGet (build_reverse_graph rows) s = some l → main_results rows s false = l)
    ∧ (dictGet (build_reverse_graph rows) s = none → main_results rows s false = []) := by
  constructor
  · intro l hl
    show dictGetD (build_reverse_graph rows) s [] = l
    rw [dictGetD, hl]
    rfl
  · intro h
    show dictGetD (build_reverse_graph rows) s [] = []
    rw [dictGetD, h]
    rfl

/-- Claim C5 witness: a present and an absent target on a concrete store. -/
theorem raw_mode_exact_entry_witness :
    main_results [("A", "X", "1")] "X" false = [("A", "1")]
    ∧ main_results [("A", "X", "1")] "Z" false = [] :=
  ⟨(raw_mode_exact_entry [("A", "X", "1")] "X").1 [("A", "1")] (by decide),
   (raw_mode_exact_entry [("A", "X", "1")] "Z").2 (by decide)⟩

/-- Claim C6: a target absent from the Reverse Adjacency Map yields the empty
sequence in both modes; both functions are total, so no error can arise. -/
theorem absent_target_empty (rows : List Fact) (s : String)
    (h : dictGet (build_reverse_graph rows) s = none) :
    main_results rows s false = [] ∧ main_results rows s true = [] := by
  have hD : dictGetD (build_reverse_graph rows) s [] = [] := by
    rw [dictGetD, h]
    rfl
  constructor
  · show dictGetD (build_reverse_graph rows) s [] = []
    exact hD
  · show compute_immediate_upstream s (build_reverse_graph rows) (build_direct_map rows) = []
    rw [compute_immediate_eq_filter, hD]
    rfl

/-- Claim C6 witness: the empty fact list, where every target is absent. -/
theorem absent_target_empty_witness :
    dictGet (build_reverse_graph ([] : List Fact)) "Z" = none
    ∧ main_results [] "Z" false = [] ∧ main_results [] "Z" true = [] :=
  ⟨by decide, absent_target_empty [] "Z" (by decide)⟩

/-- Claim C7: two raw candidates with the same service name are classified
identically in Immediate mode — the filter depends only on the name. -/
theorem same_name_same_classification (rows : List Fact) (s d v₁ v₂ : String)
    (h₁ : (d, v₁) ∈ rawUpstream rows s) (h₂ : (d, v₂) ∈ rawUpstream rows s) :
    ((d, v₁) ∈ main_results rows s true ↔ (d, v₂) ∈ main_results rows s true) := by
  have hm : main_results rows s true
      = compute_immediate_upstream s (build_reverse_graph rows)
          (build_direct_map rows) := rfl
  rw [hm, mem_compute_immediate, mem_compute_immediate]
  constructor
  · intro hh
    exact ⟨h₂, hh.2⟩
  · intro hh
    exact ⟨h₁, hh.2⟩

/-- Claim C7 witness: same dependent name under two versions, both kept. -/
theorem same_name_same_classification_witness :
    ("A", "1") ∈ rawUpstream [("A", "X", "1"), ("A", "X", "2")] "X"
    ∧ ("A", "2") ∈ rawUpstream [("A", "X", "1"), ("A", "X", "2")] "X"
    ∧ (("A", "1") ∈ main_results [("A", "X", "1"), ("A", "X", "2")] "X" true
        ↔ ("A", "2") ∈ main_results [("A", "X", "1"), ("A", "X", "2")] "X" true) :=
  ⟨by decide, by decide,
   same_name_same_classification [("A", "X", "1"), ("A", "X", "2")] "X" "A" "1" "2"
     (by decide) (by decide)⟩

/-- Claim C8: inserting the same (service, dependency, version) triple N
times (N ≥ 1) into a store satisfying the uniqueness invariant leaves exactly
one row equal to that triple, and when the triple is already present the
whole sequence of insertions is a no-op. -/
theorem insert_idempotent (store : List Fact) (svc d v : String) (n : Nat)
    (hn : 1 ≤ n) (hs : countRow store (svc, d, v) ≤ 1) :
    countRow (save_dependencies_to_db svc (List.replicate n (d, v)) store) (svc, d, v) = 1
    ∧ ((svc, d, v) ∈ store →
        save_dependencies_to_db svc (List.replicate n (d, v)) store = store) := by
  constructor
  · obtain ⟨m, rfl⟩ : ∃ m, n = m + 1 := ⟨n - 1, by omega⟩
    rw [List.replicate_succ]
    show countRow (save_dependencies_to_db svc (List.replicate m (d, v))
        (insertOrIgnore store (svc, d, v))) (svc, d, v) = 1
    rw [save_replicate_of_mem svc d v m _ (mem_insertOrIgnore store _)]
    exact countRow_insertOrIgnore store _ hs
  · intro hm
    exact save_replicate_of_mem svc d v n store hm

/-- Claim C8 witness: three insertions of one triple into an empty store. -/
theorem insert_idempotent_witness :
    countRow (save_dependencies_to_db "service-a"
        (List.replicate 3 ("dep-b", "1.0")) []) ("service-a", "dep-b", "1.0") = 1 :=
  (insert_idempotent [] "service-a" "dep-b" "1.0" 3 (by decide) (by decide)).1

/-- Claim C9 (code evaluation): load_db contains no exception handler and
main wraps it in none, so a failing store open or scan surfaces from the
whole invocation as the raw error, never converted to a message. -/
theorem store_failure_propagates_raw :
    load_db ⟨Except.error "unable to open database file", Except.ok []⟩
      = (Except.error "unable to open database file" : Except String (List Fact))
    ∧ main_run ⟨Except.error "unable to open database file", Except.ok []⟩
        "service-a" false
      = Except.error "unable to open database file"
    ∧ main_run ⟨Except.ok (), Except.error "no such table: service_dependencies"⟩
        "service-a" true
      = Except.error "no such table: service_dependencies" :=
  ⟨rfl, rfl, rfl⟩

/-- Claim C10: a candidate of the target with no entry at all in the forward
map is always classified immediate — the lookup falls back to the empty set
rather than failing. -/
theorem no_forward_entry_immediate (service : String)
    (rg : List (String × List (String × String)))
    (dm : List (String × List String)) (d v : String)
    (hc : (d, v) ∈ dictGetD rg service []) (hf : dictGet dm d = none) :
    (d, v) ∈ compute_immediate_upstream service rg dm := by
  rw [mem_compute_immediate]
  refine ⟨hc, ?_⟩
  rintro ⟨x, hx, -⟩
  have h0 : dictGetD dm d [] = ([] : List String) := by
    rw [dictGetD, hf]
    rfl
  have hx' : x ∈ dictGetD dm d [] := hx
  rw [h0] at hx'
  exact absurd hx' (List.not_mem_nil x)

/-- Claim C10 witness: a reverse map with one candidate and an empty forward
map. -/
theorem no_forward_entry_immediate_witness :
    ("A", "1") ∈ dictGetD [("X", [("A", "1")])] "X" ([] : List (String × String))
    ∧ dictGet ([] : List (String × List String)) "A" = none
    ∧ ("A", "1") ∈ compute_immediate_upstream "X" [("X", [("A", "1")])] [] :=
  ⟨by decide, by decide,
   no_forward_entry_immediate "X" [("X", [("A", "1")])] [] "A" "1" (by decide) (by decide)⟩

end DepList
